import Mathlib

/-!
Verification of the concurrent work-partitioning and checkpointed execution
engine of `lib/pipeline.py` (class `Pipeline`).

The Python source is shallowly embedded below:
* `balance_multithreads` models `Pipeline.balance_multithreads` (the
  ThreadBudgetAllocator), with Python float division embedded as `ℚ` division
  and the `max(zip(...))` tuple comparison embedded as lexicographic
  comparison on `ℚ × String` pairs;
* `split_tsv_file` models the chunk-list computation of
  `Pipeline.split_tsv_file` (the ChunkPlanner);
* `engineRun` and friends model the nested traversal of
  `Pipeline.call_iedb_and_parse_outputs`, sequentialized, with the file
  system abstracted as a membership predicate over deterministic artifact
  paths;
* `runGateway` models the rate-limit logic around `lib.call_iedb.main`;
* `checkInputs` models the restart-input comparison loop of
  `Pipeline.print_log`;
* `executeModel` models the control flow of `Pipeline.execute` around the
  empty-input check and the empty-parsed-output check.
-/

namespace Pipeline


/-! ### ThreadBudgetAllocator: `Pipeline.balance_multithreads` -/

/-- The four work axes, in the insertion order of the Python dict
`iteration_info` built in `call_iedb_and_parse_outputs`. -/
inductive Dimension
  | file
  | allele
  | length
  | algorithm
deriving DecidableEq, Repr

/-- The Python dict key string for each axis, as used by
`iteration_info.keys()`. -/
def Dimension.pyName : Dimension → String
  | .file => "file"
  | .allele => "allele"
  | .length => "length"
  | .algorithm => "algorithm"

/-- Lexicographic comparison of character lists by code point: how Python
compares the key strings inside the tuples given to `max`.  (`String.ltb`
does not reduce in the kernel, so the comparison is embedded over `List
Char`; `pyStrLt_iff` proves it agrees with the `String` order.) -/
def charListLt : List Char → List Char → Bool
  | [], [] => false
  | [], _ :: _ => true
  | _ :: _, [] => false
  | a :: as, b :: bs =>
    if a < b then true
    else if b < a then false
    else charListLt as bs

/-- Python string comparison via the character list. -/
def pyStrLt (s t : String) : Bool :=
  charListLt s.data t.data

/-- One entry of the `iteration_info` dict: `total_iterations` and `threads`
are Python ints, `iterations_per_thread` becomes a float after the first
recalculation (true division), embedded as `ℚ`. -/
structure AxisInfo where
  total_iterations : ℕ
  iterations_per_thread : ℚ
  threads : ℕ
deriving DecidableEq, Repr

/-- The whole `iteration_info` dict. -/
structure IterationInfo where
  file : AxisInfo
  allele : AxisInfo
  length : AxisInfo
  algorithm : AxisInfo
deriving DecidableEq, Repr

def IterationInfo.get (info : IterationInfo) : Dimension → AxisInfo
  | .file => info.file
  | .allele => info.allele
  | .length => info.length
  | .algorithm => info.algorithm

def IterationInfo.set (info : IterationInfo) : Dimension → AxisInfo → IterationInfo
  | .file, a => { info with file := a }
  | .allele, a => { info with allele := a }
  | .length, a => { info with length := a }
  | .algorithm, a => { info with algorithm := a }

/-- `total_n_threads` as computed on line 295 of `pipeline.py`:
the product of the four per-axis thread counts. -/
def threadProduct (info : IterationInfo) : ℕ :=
  info.file.threads * info.allele.threads * info.length.threads * info.algorithm.threads

/-- Python tuple comparison `p > q` on `(iterations_per_thread, key)` pairs,
as performed by `max(zip(map(..., values()), keys()))` on line 291: compare
the floats first, and on equality compare the key strings. -/
def pairGt (p q : ℚ × String) : Bool :=
  decide (q.1 < p.1) || (decide (p.1 = q.1) && pyStrLt q.2 p.2)

/-- The comparison key of an axis: its current `iterations_per_thread`
paired with its dict key string. -/
def selKey (info : IterationInfo) (d : Dimension) : ℚ × String :=
  ((info.get d).iterations_per_thread, d.pyName)

/-- One step of CPython `max`: keep the current maximum unless the next
element is strictly greater. -/
def pmax (info : IterationInfo) (x y : Dimension) : Dimension :=
  if pairGt (selKey info y) (selKey info x) then y else x

/-- The dimension selected on line 291: `max` over the pairs
`(iterations_per_thread, key)` in dict insertion order
`file, allele, length, algorithm`. -/
def selectDimension (info : IterationInfo) : Dimension :=
  pmax info (pmax info (pmax info .file .allele) .length) .algorithm

/-- The loop body of `balance_multithreads` (lines 289-307), with explicit
fuel standing for the remaining iterations of `range(1, n_threads)`.
The second component counts how many loop iterations (greedy steps) ran.
The Python code increments `threads` in place and decrements it again on
the over-budget branch; reverting the increment restores the entry state,
so that branch returns `info` unchanged. -/
def balanceGo (n_threads : ℕ) : ℕ → IterationInfo → IterationInfo × ℕ
  | 0, info => (info, 0)
  | fuel + 1, info =>
    let d := selectDimension info
    let a := info.get d
    let info1 := info.set d { a with threads := a.threads + 1 }
    if n_threads < threadProduct info1 then (info, 1)
    else
      let a1 := info1.get d
      let info2 := info1.set d
        { a1 with iterations_per_thread := (a1.total_iterations : ℚ) / (a1.threads : ℚ) }
      if info2.file.iterations_per_thread ≤ 1 ∧ info2.allele.iterations_per_thread ≤ 1 ∧
          info2.length.iterations_per_thread ≤ 1 ∧ info2.algorithm.iterations_per_thread ≤ 1 then
        (info2, 1)
      else
        ((balanceGo n_threads fuel info2).1, (balanceGo n_threads fuel info2).2 + 1)

/-- `Pipeline.balance_multithreads`: `for i in range(1, self.n_threads)`
runs the greedy body at most `n_threads - 1` times. -/
def balance_multithreads (n_threads : ℕ) (info : IterationInfo) : IterationInfo :=
  (balanceGo n_threads (n_threads - 1) info).1

/-- Number of greedy steps executed by `balance_multithreads`. -/
def balanceSteps (n_threads : ℕ) (info : IterationInfo) : ℕ :=
  (balanceGo n_threads (n_threads - 1) info).2

/-- The initial `iteration_info` dict built on lines 315-336: every axis has
`threads = 1` and `iterations_per_thread = total_iterations`. -/
def initIterationInfo (nChunks nAlleles nLengths nAlgorithms : ℕ) : IterationInfo where
  file := ⟨nChunks, (nChunks : ℚ), 1⟩
  allele := ⟨nAlleles, (nAlleles : ℚ), 1⟩
  length := ⟨nLengths, (nLengths : ℚ), 1⟩
  algorithm := ⟨nAlgorithms, (nAlgorithms : ℚ), 1⟩

/-! ### ChunkPlanner: `Pipeline.split_tsv_file` -/

/-- The row-reading loop of `split_tsv_file` (lines 226-249), restricted to
its chunk-list effect.  `fuel` is the number of rows the `csv` reader has
left to yield (the file holds exactly `total` data rows); `row` is
`row_count`.  Per iteration: break when `row_count == total_row_count`,
otherwise when `row_count % tsv_size == 0` plan the next chunk
`[row_count + 1, min (row_count + tsv_size) total_row_count]`. -/
def splitLoop (T total : ℕ) : ℕ → ℕ → List (ℕ × ℕ)
  | _, 0 => []
  | row, fuel + 1 =>
    if row = total then []
    else if row % T = 0 then
      (row + 1, min (row + T) total) :: splitLoop T total (row + 1) fuel
    else splitLoop T total (row + 1) fuel

/-- The chunk list returned by `split_tsv_file` (lines 204-253) for a chunk
row size `T` (`tsv_size`, computed in the code as `fasta_size / 2`) and
`total` data rows: the first chunk `[1, min T total]` is planned before the
loop (lines 210-217), the rest inside it. -/
def split_tsv_file (T total : ℕ) : List (ℕ × ℕ) :=
  (1, min T total) :: splitLoop T total 1 total

/-- `IsPartition lo hi l`: the ranges in `l` are consecutive, non-empty,
and exactly cover the interval `[lo, hi]`. -/
def IsPartition : ℕ → ℕ → List (ℕ × ℕ) → Prop
  | lo, hi, [] => lo = hi + 1
  | lo, hi, c :: rest => c.1 = lo ∧ c.1 ≤ c.2 ∧ c.2 ≤ hi ∧ IsPartition (c.2 + 1) hi rest

def IsPartition.dec : (lo hi : ℕ) → (l : List (ℕ × ℕ)) → Decidable (IsPartition lo hi l)
  | lo, hi, [] => inferInstanceAs (Decidable (lo = hi + 1))
  | lo, hi, c :: rest =>
    haveI := IsPartition.dec (c.2 + 1) hi rest
    inferInstanceAs (Decidable (c.1 = lo ∧ c.1 ≤ c.2 ∧ c.2 ≤ hi ∧ IsPartition (c.2 + 1) hi rest))

instance (lo hi : ℕ) (l : List (ℕ × ℕ)) : Decidable (IsPartition lo hi l) :=
  IsPartition.dec lo hi l

/-- Lexicographic order on `(iterations_per_thread, key)` pairs: what
Python tuple comparison induces. -/
def keyLe (x y : ℚ × String) : Prop :=
  x.1 < y.1 ∨ (x.1 = y.1 ∧ x.2 ≤ y.2)

/-! ### ParallelExecutionEngine: `Pipeline.call_iedb_and_parse_outputs`

The nested parallel loops are sequentialized (the loop bodies are the same;
`pymp`'s `p.range` only distributes the same index set over workers).  The
file system is abstracted as a membership predicate over the deterministic
artifact paths of the tmp directory; each artifact's content is a function
of its path and the run inputs, so path membership is the whole state. -/

/-- Deterministic artifact paths used by the engine: the per-unit IEDB
output `sample.iedb_method.allele.epl.tsv_chunk` (line 380) and the
per-cell parsed output `sample.allele.epl.parsed.tsv_chunk` (line 411).
Alleles, lengths and algorithm names are indexed by naturals. -/
inductive ArtifactPath
  | iedb (chunk : ℕ × ℕ) (allele : ℕ) (epl : ℕ) (iedbMethod : ℕ)
  | parsed (chunk : ℕ × ℕ) (allele : ℕ) (epl : ℕ)
deriving DecidableEq

/-- The file-system abstraction: which artifact paths exist. -/
def FS : Type := ArtifactPath → Bool

/-- Writing an artifact: afterwards its path exists. -/
def insertArtifact (fs : FS) (p : ArtifactPath) : FS :=
  fun q => if q = p then true else fs q

/-- The run-invariant inputs of the engine: the axis lists and the
collaborator predicates (`valid_allele_names`, `valid_lengths_for_allele`,
`iedb_prediction_method`, and emptiness of each chunk's FASTA file). -/
structure EngineParams where
  alleles : List ℕ
  epitope_lengths : List ℕ
  prediction_algorithms : List ℕ
  iedb_method : ℕ → ℕ
  valid_allele : ℕ → ℕ → Bool
  valid_length : ℕ → ℕ → ℕ → Bool
  fasta_empty : (ℕ × ℕ) → Bool

/-- The IEDB output path of method `m` for a cell, named after
`iedb_method m` as on line 380. -/
def iedbPath (P : EngineParams) (c : ℕ × ℕ) (a epl m : ℕ) : ArtifactPath :=
  ArtifactPath.iedb c a epl (P.iedb_method m)

/-- The parsed output path of a cell (line 411). -/
def parsedPath (c : ℕ × ℕ) (a epl : ℕ) : ArtifactPath :=
  ArtifactPath.parsed c a epl

/-- The innermost loop (lines 362-408) over a list of prediction
algorithms: skip incompatible allele/length combinations; for a compatible
method, if the IEDB output exists, record it and skip the invocation,
otherwise invoke the tool (recorded in the middle component) and write the
output.  Returns (file system, invocations made, `split_iedb_output_files`). -/
def algRun (P : EngineParams) (c : ℕ × ℕ) (a epl : ℕ) :
    List ℕ → FS → FS × List ArtifactPath × List ArtifactPath
  | [], fs => (fs, [], [])
  | m :: ms, fs =>
    if (P.valid_allele m a && P.valid_length m a epl) = false then algRun P c a epl ms fs
    else if fs (iedbPath P c a epl m) then
      ((algRun P c a epl ms fs).1, (algRun P c a epl ms fs).2.1,
        iedbPath P c a epl m :: (algRun P c a epl ms fs).2.2)
    else
      ((algRun P c a epl ms (insertArtifact fs (iedbPath P c a epl m))).1,
        iedbPath P c a epl m ::
          (algRun P c a epl ms (insertArtifact fs (iedbPath P c a epl m))).2.1,
        iedbPath P c a epl m ::
          (algRun P c a epl ms (insertArtifact fs (iedbPath P c a epl m))).2.2)

/-- The `split_iedb_output_files` list of a cell is determined by the
parameters alone: every compatible method contributes its path, whether or
not the invocation was skipped. -/
def validOutsOf (P : EngineParams) (c : ℕ × ℕ) (a epl : ℕ) (ms : List ℕ) : List ArtifactPath :=
  (ms.filter (fun m => P.valid_allele m a && P.valid_length m a epl)).map
    (fun m => iedbPath P c a epl m)

/-- One cell `(chunk, allele, epitope length)` of the nested traversal
(lines 350-434): skip the whole cell when the chunk's FASTA file is empty
(line 358); otherwise run all algorithms, then either record the already
existing parsed artifact (lines 412-415), or parse into a new artifact when
at least one IEDB output is available (lines 418-434), or record nothing.
Returns (file system, invocations, contribution to
`split_parsed_output_files`). -/
def cellRun (P : EngineParams) (cell : (ℕ × ℕ) × ℕ × ℕ) (fs : FS) :
    FS × List ArtifactPath × List ArtifactPath :=
  if P.fasta_empty cell.1 then (fs, [], [])
  else
    if (algRun P cell.1 cell.2.1 cell.2.2 P.prediction_algorithms fs).1
        (parsedPath cell.1 cell.2.1 cell.2.2) then
      ((algRun P cell.1 cell.2.1 cell.2.2 P.prediction_algorithms fs).1,
        (algRun P cell.1 cell.2.1 cell.2.2 P.prediction_algorithms fs).2.1,
        [parsedPath cell.1 cell.2.1 cell.2.2])
    else if (algRun P cell.1 cell.2.1 cell.2.2 P.prediction_algorithms fs).2.2 ≠ [] then
      (insertArtifact (algRun P cell.1 cell.2.1 cell.2.2 P.prediction_algorithms fs).1
          (parsedPath cell.1 cell.2.1 cell.2.2),
        (algRun P cell.1 cell.2.1 cell.2.2 P.prediction_algorithms fs).2.1,
        [parsedPath cell.1 cell.2.1 cell.2.2])
    else
      ((algRun P cell.1 cell.2.1 cell.2.2 P.prediction_algorithms fs).1,
        (algRun P cell.1 cell.2.1 cell.2.2 P.prediction_algorithms fs).2.1, [])

/-- The whole nested traversal over a list of cells, threading the file
system and concatenating invocations and parsed-output paths in order. -/
def engineRun (P : EngineParams) : List ((ℕ × ℕ) × ℕ × ℕ) → FS →
    FS × List ArtifactPath × List ArtifactPath
  | [], fs => (fs, [], [])
  | cell :: cs, fs =>
    ((engineRun P cs (cellRun P cell fs).1).1,
      (cellRun P cell fs).2.1 ++ (engineRun P cs (cellRun P cell fs).1).2.1,
      (cellRun P cell fs).2.2 ++ (engineRun P cs (cellRun P cell fs).1).2.2)

/-- The cell list of `call_iedb_and_parse_outputs`: chunks, then alleles,
then epitope lengths, in loop order. -/
def cellList (P : EngineParams) (chunks : List (ℕ × ℕ)) : List ((ℕ × ℕ) × ℕ × ℕ) :=
  chunks.flatMap (fun c => P.alleles.flatMap (fun a =>
    P.epitope_lengths.map (fun epl => (c, a, epl))))

/-- `Pipeline.call_iedb_and_parse_outputs`: run the nested traversal over
every `(chunk, allele, epitope length)` cell, returning the final file
system, the external-tool invocations performed, and
`split_parsed_output_files`. -/
def call_iedb_and_parse_outputs (P : EngineParams) (chunks : List (ℕ × ℕ)) (fs : FS) :
    FS × List ArtifactPath × List ArtifactPath :=
  engineRun P (cellList P chunks) fs

/-- Stability of a cell with respect to a file system: every compatible
IEDB output exists, and if there is at least one compatible method the
parsed artifact exists too.  This is exactly what one pass of the cell
establishes. -/
def StableCell (P : EngineParams) (fs : FS) (cell : (ℕ × ℕ) × ℕ × ℕ) : Prop :=
  P.fasta_empty cell.1 = false →
    (∀ p ∈ validOutsOf P cell.1 cell.2.1 cell.2.2 P.prediction_algorithms, fs p = true) ∧
    (validOutsOf P cell.1 cell.2.1 cell.2.2 P.prediction_algorithms ≠ [] →
      fs (parsedPath cell.1 cell.2.1 cell.2.2) = true)

/-- What a cell contributes to `split_parsed_output_files` when the file
system is already stable for it. -/
def cellDelta (P : EngineParams) (fs : FS) (cell : (ℕ × ℕ) × ℕ × ℕ) : List ArtifactPath :=
  if P.fasta_empty cell.1 then []
  else if fs (parsedPath cell.1 cell.2.1 cell.2.2) then [parsedPath cell.1 cell.2.1 cell.2.2]
  else []

/-! ### RateLimitedExternalGateway: lines 387-405 (claims C6, C10) -/

/-- Whether the rate-limit block on lines 387-392 runs at all:
`not os.environ.get('TEST_FLAG') or os.environ.get('TEST_FLAG') == '0'`.
`os.environ.get` returns `None` (falsy) when the variable is unset, and the
only falsy string is the empty string, so the block runs exactly when the
variable is unset, empty, or exactly `"0"`. -/
def waitCheckEnabled : Option String → Bool
  | none => true
  | some s => s == "" || s == "0"

/-- The throttle (lines 388-392) as seen by one invocation arriving at time
`arrive` with `last` the in-scope `last_execute_timestamp` (`none` while
the local variable is unbound): when the check is enabled, a previous
timestamp exists and no `iedb_executable` override is set, compute
`wait_time = 60 - (arrive - last)` and sleep it when positive.  Returns the
time at which `lib.call_iedb.main` starts. -/
def gatewayStart (enabled override : Bool) (last : Option ℚ) (arrive : ℚ) : ℚ :=
  if enabled then
    match last with
    | some t =>
      if override then arrive
      else if 0 < 60 - (arrive - t) then arrive + (60 - (arrive - t))
      else arrive
    | none => arrive
  else arrive

/-- A sequential trace of invocations through the gateway.  Each element of
the list is `(gap, duration)`: wall-clock time spent before reaching the
throttle check, and the duration of the invocation itself.  After each
invocation the timestamp is set to its completion time (line 405).
Returns the start time of every invocation. -/
def runGateway (enabled override : Bool) : List (ℚ × ℚ) → ℚ → Option ℚ → List ℚ
  | [], _, _ => []
  | gd :: rest, now, last =>
    gatewayStart enabled override last (now + gd.1) ::
      runGateway enabled override rest
        (gatewayStart enabled override last (now + gd.1) + gd.2)
        (some (gatewayStart enabled override last (now + gd.1) + gd.2))

/-- Consecutive elements of the list are at least 60 apart. -/
def sep60 : List ℚ → Bool
  | a :: b :: rest => decide (a + 60 ≤ b) && sep60 (b :: rest)
  | _ => true

/-- The head of the list, if any, is at least `t + 60`. -/
def headGe (t : ℚ) : List ℚ → Prop
  | [] => True
  | x :: _ => t + 60 ≤ x

/-- The same trace when the throttle block is disabled: every invocation
starts as soon as it arrives. -/
def noWaitRun : List (ℚ × ℚ) → ℚ → List ℚ
  | [], _ => []
  | gd :: rest, now => (now + gd.1) :: noWaitRun rest (now + gd.1 + gd.2)

/-! ### Restart log: `Pipeline.print_log` (claim C9) -/

/-- Outcome of the input-comparison loop on lines 100-115. -/
inductive LogCheckResult
  | keyError (key : String)
  | exitAdditionalInput (key : String)
  | exitMismatch (key : String)
  | ok
deriving DecidableEq

/-- Dict lookup `d[k]` as an option; values are `Option String` with `none`
standing for Python `None`. -/
def lookupKey (d : List (String × Option String)) (k : String) : Option (Option String) :=
  (d.find? (fun p => p.1 == k)).map Prod.snd

/-- The comparison loop of `print_log` over `current_inputs` in iteration
order (lines 100-115): version keys are skipped (line 101); a key missing
from `past_inputs` whose current value is not None exits with the
additional-input diagnostic (lines 103-108); for a key missing from
`past_inputs` whose current value IS None, the first condition is false and
the `elif` on line 109 indexes `past_inputs[key]`, raising `KeyError`; a
present key with a different value exits with the mismatch diagnostic
(lines 109-115). -/
def checkInputs (past : List (String × Option String)) :
    List (String × Option String) → LogCheckResult
  | [] => .ok
  | (k, v) :: rest =>
    if k = "pvactools_version" ∨ k = "pvacseq_version" then checkInputs past rest
    else
      match lookupKey past k with
      | none => if v ≠ none then .exitAdditionalInput k else .keyError k
      | some pv => if v ≠ pv then .exitMismatch k else checkInputs past rest

/-- `Pipeline.print_log`: compare against the recorded inputs when the log
file exists (lines 89-115); otherwise write a fresh log and return no
comparison outcome (lines 116-120). -/
def print_log (logExists : Bool) (past current : List (String × Option String)) :
    Option LogCheckResult :=
  if logExists then some (checkInputs past current) else none

/-! ### `Pipeline.execute` (claims C7, C8) -/

/-- The three input file types dispatched on in `execute` (lines 461-465). -/
inductive InputFileType
  | vcf
  | bedpe
  | pvacvector_input_fasta
deriving DecidableEq

/-- Outcome of a run of `Pipeline.execute` around its two abort points. -/
inductive PipelineOutcome
  | emptyInputExit
  | noUsableOutput
  | success
deriving DecidableEq

/-- `Pipeline.execute` (lines 456-475), abstracted to its control flow: a
zero-row converted TSV aborts via `sys.exit` for the two converted input
types (lines 461-465) before `split_tsv_file`, `generate_fasta` or any
IEDB work; otherwise the TSV is chunked and the engine runs; an empty
`split_parsed_output_files` returns gracefully with a diagnostic and
without writing the combined file (lines 471-473); otherwise the combined
output is produced from the parsed files (line 475).  The second component
is the combined output, `none` when not written. -/
def executeModel (t : InputFileType) (T total : ℕ) (P : EngineParams) (fs0 : FS) :
    PipelineOutcome × Option (List ArtifactPath) :=
  if total = 0 ∧ (t = .vcf ∨ t = .bedpe) then (.emptyInputExit, none)
  else
    if (call_iedb_and_parse_outputs P (split_tsv_file T total) fs0).2.2.length = 0 then
      (.noUsableOutput, none)
    else
      (.success, some (call_iedb_and_parse_outputs P (split_tsv_file T total) fs0).2.2)

/-- Example engine parameters with a single allele, epitope length and
algorithm where no (allele, length, algorithm) combination is compatible. -/
def sampleParams : EngineParams where
  alleles := [0]
  epitope_lengths := [8]
  prediction_algorithms := [0]
  iedb_method := fun m => m
  valid_allele := fun _ _ => false
  valid_length := fun _ _ _ => false
  fasta_empty := fun _ => false

/-- The empty working directory. -/
def emptyFS : FS := fun _ => false

/-! ### Lemmas about the allocator -/

lemma threadProduct_set_ipt (info : IterationInfo) (d : Dimension) (q : ℚ) :
    threadProduct (info.set d { info.get d with iterations_per_thread := q }) =
      threadProduct info := by
  cases d <;> simp [IterationInfo.set, IterationInfo.get, threadProduct]

lemma balanceGo_product_le (n : ℕ) :
    ∀ fuel info, threadProduct info ≤ n → threadProduct (balanceGo n fuel info).1 ≤ n := by
  intro fuel
  induction fuel with
  | zero => intro info h; exact h
  | succ fuel ih =>
    intro info h
    simp only [balanceGo]
    split_ifs with h1 h2
    · exact h
    · rw [threadProduct_set_ipt]
      omega
    · apply ih
      rw [threadProduct_set_ipt]
      omega

lemma balanceGo_steps_le (n : ℕ) :
    ∀ fuel info, (balanceGo n fuel info).2 ≤ fuel := by
  intro fuel
  induction fuel with
  | zero => intro info; simp [balanceGo]
  | succ fuel ih =>
    intro info
    simp only [balanceGo]
    split_ifs
    · omega
    · omega
    · exact Nat.add_le_add_right (ih _) 1

/-- Claim C1: for all four axis iteration counts at least 1 and a thread
budget `n ≥ 1`, `balance_multithreads` returns a plan whose per-axis thread
counts multiply to at most `n`, and executes at most `n` greedy steps
(in fact at most `n - 1`, the trip count of `range(1, n_threads)`). -/
theorem balance_multithreads_within_budget (nc na nl ng n : ℕ)
    (hc : 1 ≤ nc) (ha : 1 ≤ na) (hl : 1 ≤ nl) (hg : 1 ≤ ng) (hn : 1 ≤ n) :
    threadProduct (balance_multithreads n (initIterationInfo nc na nl ng)) ≤ n ∧
    balanceSteps n (initIterationInfo nc na nl ng) ≤ n := by
  constructor
  · apply balanceGo_product_le
    simpa [threadProduct, initIterationInfo] using hn
  · have h := balanceGo_steps_le n (n - 1) (initIterationInfo nc na nl ng)
    unfold balanceSteps
    omega

/-- Witness for C1 at the spec's own example: axis counts
`(file, allele, length, algorithm) = (3, 2, 2, 1)` and budget 6. -/
theorem balance_multithreads_within_budget_witness :
    (1 ≤ 3 ∧ 1 ≤ 2 ∧ 1 ≤ 2 ∧ 1 ≤ 1 ∧ 1 ≤ 6) ∧
    (threadProduct (balance_multithreads 6 (initIterationInfo 3 2 2 1)) ≤ 6 ∧
      balanceSteps 6 (initIterationInfo 3 2 2 1) ≤ 6) :=
  ⟨by decide,
   balance_multithreads_within_budget 3 2 2 1 6 (by decide) (by decide) (by decide)
     (by decide) (by decide)⟩

/-! ### The tie-breaking rule of the `max(zip(...))` selection (claim C2) -/

/-- Counterexample to C2 as stated: with axis totals
`(file, allele, length, algorithm) = (4, 1, 4, 1)` the axes `file` and
`length` tie at the maximum `iterations_per_thread = 4`, yet the selected
axis is `length`, not the earlier `file`; consequently with budget 2 the
extra thread goes to `length` while `file` keeps 1 thread. -/
theorem selectDimension_tie_counterexample :
    selectDimension (initIterationInfo 4 1 4 1) = Dimension.length ∧
    (initIterationInfo 4 1 4 1).file.iterations_per_thread =
      (initIterationInfo 4 1 4 1).length.iterations_per_thread ∧
    (balance_multithreads 2 (initIterationInfo 4 1 4 1)).length.threads = 2 ∧
    (balance_multithreads 2 (initIterationInfo 4 1 4 1)).file.threads = 1 := by
  decide

/-- `charListLt` agrees with the lexicographic order `List.Lex` used by
the Mathlib order on `List Char`. -/
lemma charListLt_iff_lex : ∀ s t : List Char, charListLt s t = true ↔ List.Lex (· < ·) s t
  | [], [] => by
    simp only [charListLt, Bool.false_eq_true, false_iff]
    intro h
    cases h
  | [], _ :: _ => by
    simp only [charListLt, true_iff]
    exact List.Lex.nil
  | _ :: _, [] => by
    simp only [charListLt, Bool.false_eq_true, false_iff]
    intro h
    cases h
  | a :: as, b :: bs => by
    simp only [charListLt]
    split_ifs with h1 h2
    · simp only [true_iff]
      exact List.Lex.rel h1
    · simp only [Bool.false_eq_true, false_iff]
      intro h
      cases h with
      | rel h3 => exact h1 h3
      | cons h3 => exact lt_irrefl a h2
    · have hab : a = b := le_antisymm (not_lt.mp h2) (not_lt.mp h1)
      subst hab
      rw [charListLt_iff_lex as bs]
      constructor
      · exact List.Lex.cons
      · intro h
        cases h with
        | rel h3 => exact absurd h3 h1
        | cons h3 => exact h3

/-- `pyStrLt` agrees with the `String` linear order. -/
lemma pyStrLt_iff (s t : String) : pyStrLt s t = true ↔ s < t := by
  rw [String.lt_iff_toList_lt]
  exact charListLt_iff_lex s.data t.data

lemma keyLe_refl (x : ℚ × String) : keyLe x x := Or.inr ⟨rfl, le_refl _⟩

lemma keyLe_trans {x y z : ℚ × String} (h1 : keyLe x y) (h2 : keyLe y z) : keyLe x z := by
  rcases h1 with h1 | ⟨h1a, h1b⟩ <;> rcases h2 with h2 | ⟨h2a, h2b⟩
  · exact Or.inl (lt_trans h1 h2)
  · exact Or.inl (h2a ▸ h1)
  · exact Or.inl (h1a ▸ h2)
  · exact Or.inr ⟨h1a.trans h2a, h1b.trans h2b⟩

lemma keyLe_of_pairGt_true {x y : ℚ × String} (h : pairGt y x = true) : keyLe x y := by
  simp only [pairGt, Bool.or_eq_true, Bool.and_eq_true, decide_eq_true_eq] at h
  rcases h with h | ⟨h1, h2⟩
  · exact Or.inl h
  · exact Or.inr ⟨h1.symm, le_of_lt ((pyStrLt_iff _ _).mp h2)⟩

lemma keyLe_of_pairGt_false {x y : ℚ × String} (h : pairGt y x = false) : keyLe y x := by
  simp only [pairGt, Bool.or_eq_false_iff, Bool.and_eq_false_iff, decide_eq_false_iff_not,
    not_lt] at h
  obtain ⟨h1, h2⟩ := h
  rcases lt_or_eq_of_le h1 with h3 | h3
  · exact Or.inl h3
  · refine Or.inr ⟨h3, ?_⟩
    rcases h2 with h2 | h2
    · exact absurd h3 h2
    · have h4 : ¬(x.2 < y.2) := fun hc => by
        have h5 := (pyStrLt_iff x.2 y.2).mpr hc
        rw [h5] at h2
        exact Bool.noConfusion h2
      exact not_lt.mp h4

lemma keyLe_pmax_left (info : IterationInfo) (x y : Dimension) :
    keyLe (selKey info x) (selKey info (pmax info x y)) := by
  unfold pmax
  cases h : pairGt (selKey info y) (selKey info x)
  · simp only [h, Bool.false_eq_true, if_false]
    exact keyLe_refl _
  · simp only [h, if_true]
    exact keyLe_of_pairGt_true h

lemma keyLe_pmax_right (info : IterationInfo) (x y : Dimension) :
    keyLe (selKey info y) (selKey info (pmax info x y)) := by
  unfold pmax
  cases h : pairGt (selKey info y) (selKey info x)
  · simp only [h, Bool.false_eq_true, if_false]
    exact keyLe_of_pairGt_false h
  · simp only [h, if_true]
    exact keyLe_refl _

/-- Amended C2: at every greedy step, the selected axis maximizes the pair
`(iterations_per_thread, dict key)` lexicographically, so ties in
`iterations_per_thread` are broken toward the lexicographically greatest
key string (`"algorithm" < "allele" < "file" < "length"`), not toward the
earliest axis in iteration order. -/
theorem selectDimension_maximizes (info : IterationInfo) (d : Dimension) :
    keyLe (selKey info d) (selKey info (selectDimension info)) := by
  unfold selectDimension
  cases d
  · exact keyLe_trans (keyLe_trans (keyLe_pmax_left info .file .allele)
      (keyLe_pmax_left info _ .length)) (keyLe_pmax_left info _ .algorithm)
  · exact keyLe_trans (keyLe_trans (keyLe_pmax_right info .file .allele)
      (keyLe_pmax_left info _ .length)) (keyLe_pmax_left info _ .algorithm)
  · exact keyLe_trans (keyLe_pmax_right info _ .length) (keyLe_pmax_left info _ .algorithm)
  · exact keyLe_pmax_right info _ .algorithm

/-! ### Chunk-partition lemmas (claims C3, C4) -/

lemma isPartition_nil (lo hi : ℕ) : IsPartition lo hi [] ↔ lo = hi + 1 := Iff.rfl

lemma isPartition_cons (lo hi : ℕ) (c : ℕ × ℕ) (rest : List (ℕ × ℕ)) :
    IsPartition lo hi (c :: rest) ↔
      c.1 = lo ∧ c.1 ≤ c.2 ∧ c.2 ≤ hi ∧ IsPartition (c.2 + 1) hi rest := Iff.rfl

lemma splitLoop_partition (T total : ℕ) (hT : 1 ≤ T) :
    ∀ fuel row s E, row + fuel = total + 1 → 1 ≤ s → s ≤ row → row ≤ total →
      T ∣ (s - 1) → row ≤ E → E = min (s + T - 1) total →
      IsPartition (E + 1) total (splitLoop T total row fuel) := by
  intro fuel
  induction fuel with
  | zero => intro row s E h1 _ _ h4 _ _ _; omega
  | succ fuel ih =>
    intro row s E h1 hs hsr hrt hdvd hrE hE
    have hEcase : (E = s + T - 1 ∧ s + T - 1 ≤ total) ∨ (E = total ∧ total ≤ s + T - 1) := by
      rcases le_total (s + T - 1) total with hc | hc
      · exact Or.inl ⟨by rw [hE, min_eq_left hc], hc⟩
      · exact Or.inr ⟨by rw [hE, min_eq_right hc], hc⟩
    have hEtot : E ≤ total := by rw [hE]; exact min_le_right _ _
    by_cases hbr : row = total
    · simp only [splitLoop, if_pos hbr]
      rw [isPartition_nil]
      omega
    · by_cases hmod : row % T = 0
      · have hTdvd : T ∣ row := Nat.dvd_of_mod_eq_zero hmod
        have h5 : T ∣ (row - (s - 1)) := Nat.dvd_sub' hTdvd hdvd
        have h6 : 0 < row - (s - 1) := by omega
        have h7 : T ≤ row - (s - 1) := Nat.le_of_dvd h6 h5
        have h8 : E ≤ s + T - 1 := by rw [hE]; exact min_le_left _ _
        have hrow : row = s - 1 + T := by omega
        have hErow : E = row := by rcases hEcase with ⟨e1, e2⟩ | ⟨e1, e2⟩ <;> omega
        simp only [splitLoop, if_neg hbr, if_pos hmod]
        rw [isPartition_cons]
        refine ⟨by omega, le_min (by omega) (by omega), min_le_right _ _, ?_⟩
        have hnext := ih (row + 1) (row + 1) (min (row + T) total) (by omega) (by omega)
          le_rfl (by omega) (by simpa using hTdvd) (le_min (by omega) (by omega))
          (by rw [show row + 1 + T - 1 = row + T from by omega])
        exact hnext
      · simp only [splitLoop, if_neg hbr, if_neg hmod]
        have hrE1 : row + 1 ≤ E := by
          rcases Nat.lt_or_ge row E with h | h
          · omega
          · exfalso
            have hE2 : E = row := by omega
            rcases hEcase with ⟨e1, e2⟩ | ⟨e1, e2⟩
            · have hrow2 : row = s - 1 + T := by omega
              obtain ⟨k, hk⟩ : T ∣ row := by
                rw [hrow2]; exact Nat.dvd_add hdvd dvd_rfl
              apply hmod
              rw [hk, Nat.mul_mod_right]
            · omega
        exact ih (row + 1) s E (by omega) hs (by omega) (by omega) hdvd hrE1 hE

/-- Amended C3: for every `total_row_count ≥ 1` and chunk row size `T ≥ 1`,
the chunk list of `split_tsv_file` partitions `[1, total_row_count]`
exactly — consecutive, non-overlapping, non-empty ranges covering the whole
interval.  (For `total_row_count = 0` the code instead returns the single
degenerate chunk `[1, 0]`; see the counterexample.) -/
theorem split_tsv_file_partition (T total : ℕ) (hT : 1 ≤ T) (htot : 1 ≤ total) :
    IsPartition 1 total (split_tsv_file T total) := by
  unfold split_tsv_file
  rw [isPartition_cons]
  refine ⟨rfl, le_min hT htot, min_le_right _ _, ?_⟩
  exact splitLoop_partition T total hT total 1 1 (min T total) (by omega) le_rfl le_rfl htot
    (by simp) (le_min hT htot) (by rw [show 1 + T - 1 = T from by omega])

/-- Witness for C3 (amended) at chunk size 2 and 5 total rows. -/
theorem split_tsv_file_partition_witness :
    (1 ≤ 2 ∧ 1 ≤ 5) ∧ IsPartition 1 5 (split_tsv_file 2 5) :=
  ⟨by decide, split_tsv_file_partition 2 5 (by decide) (by decide)⟩

/-- Counterexample to C3 as stated: at `total_row_count = 0` the chunk list
is not empty — the code plans the degenerate chunk `[1, 0]` before reading
any row. -/
theorem split_tsv_file_zero_rows_counterexample :
    split_tsv_file 100 0 = [(1, 0)] ∧ split_tsv_file 100 0 ≠ [] := by
  decide

set_option maxRecDepth 4000 in
/-- Claim C4: with 250 total rows and chunk row size 200, `split_tsv_file`
plans exactly the two chunks `[1, 200]` and `[201, 250]`. -/
theorem split_tsv_file_250_200 :
    split_tsv_file 200 250 = [(1, 200), (201, 250)] := by
  decide

/-! ### Lemmas about the engine (claim C5) -/

lemma insertArtifact_self (fs : FS) (p : ArtifactPath) : insertArtifact fs p p = true := by
  simp [insertArtifact]

lemma insertArtifact_mono {fs : FS} {q : ArtifactPath} (p : ArtifactPath) (h : fs q = true) :
    insertArtifact fs p q = true := by
  unfold insertArtifact
  split_ifs <;> simp [h]

lemma validOutsOf_nil (P : EngineParams) (c : ℕ × ℕ) (a epl : ℕ) :
    validOutsOf P c a epl [] = [] := rfl

lemma validOutsOf_cons (P : EngineParams) (c : ℕ × ℕ) (a epl m : ℕ) (ms : List ℕ) :
    validOutsOf P c a epl (m :: ms) =
      if (P.valid_allele m a && P.valid_length m a epl) = true
      then iedbPath P c a epl m :: validOutsOf P c a epl ms
      else validOutsOf P c a epl ms := by
  unfold validOutsOf
  rw [List.filter_cons]
  split_ifs with h
  · rfl
  · rfl

lemma algRun_fst_mono (P : EngineParams) (c : ℕ × ℕ) (a epl : ℕ) :
    ∀ (ms : List ℕ) (fs : FS) (p : ArtifactPath),
      fs p = true → (algRun P c a epl ms fs).1 p = true := by
  intro ms
  induction ms with
  | nil => intro fs p h; exact h
  | cons m ms ih =>
    intro fs p h
    simp only [algRun]
    split_ifs with h1 h2
    · exact ih fs p h
    · exact ih fs p h
    · exact ih _ p (insertArtifact_mono _ h)

lemma algRun_outs (P : EngineParams) (c : ℕ × ℕ) (a epl : ℕ) :
    ∀ (ms : List ℕ) (fs : FS),
      (algRun P c a epl ms fs).2.2 = validOutsOf P c a epl ms := by
  intro ms
  induction ms with
  | nil => intro fs; rfl
  | cons m ms ih =>
    intro fs
    simp only [algRun]
    rw [validOutsOf_cons]
    by_cases hv : (P.valid_allele m a && P.valid_length m a epl) = false
    · rw [if_pos hv, if_neg (by simp [hv])]
      exact ih fs
    · have hv2 : (P.valid_allele m a && P.valid_length m a epl) = true := by simpa using hv
      rw [if_neg hv, if_pos hv2]
      by_cases hfs : fs (iedbPath P c a epl m) = true
      · rw [if_pos hfs]
        simp [ih fs]
      · rw [if_neg hfs]
        simp [ih _]

lemma algRun_complete (P : EngineParams) (c : ℕ × ℕ) (a epl : ℕ) :
    ∀ (ms : List ℕ) (fs : FS) (p : ArtifactPath),
      p ∈ validOutsOf P c a epl ms → (algRun P c a epl ms fs).1 p = true := by
  intro ms
  induction ms with
  | nil => intro fs p hp; simp [validOutsOf_nil] at hp
  | cons m ms ih =>
    intro fs p hp
    rw [validOutsOf_cons] at hp
    simp only [algRun]
    by_cases hv : (P.valid_allele m a && P.valid_length m a epl) = false
    · rw [if_neg (by simp [hv])] at hp
      rw [if_pos hv]
      exact ih fs p hp
    · have hv2 : (P.valid_allele m a && P.valid_length m a epl) = true := by simpa using hv
      rw [if_pos hv2] at hp
      rw [if_neg hv]
      by_cases hfs : fs (iedbPath P c a epl m) = true
      · rw [if_pos hfs]
        rcases List.mem_cons.mp hp with h | h
        · subst h; exact algRun_fst_mono P c a epl ms fs _ hfs
        · exact ih fs p h
      · rw [if_neg hfs]
        rcases List.mem_cons.mp hp with h | h
        · subst h
          exact algRun_fst_mono P c a epl ms _ _ (insertArtifact_self fs _)
        · exact ih _ p h

lemma algRun_stable (P : EngineParams) (c : ℕ × ℕ) (a epl : ℕ) :
    ∀ (ms : List ℕ) (fs : FS),
      (∀ p ∈ validOutsOf P c a epl ms, fs p = true) →
      algRun P c a epl ms fs = (fs, [], validOutsOf P c a epl ms) := by
  intro ms
  induction ms with
  | nil => intro fs _; rfl
  | cons m ms ih =>
    intro fs h
    simp only [algRun]
    rw [validOutsOf_cons]
    by_cases hv : (P.valid_allele m a && P.valid_length m a epl) = false
    · rw [if_pos hv, if_neg (by simp [hv])]
      apply ih
      intro p hp
      apply h
      rw [validOutsOf_cons, if_neg (by simp [hv])]
      exact hp
    · have hv2 : (P.valid_allele m a && P.valid_length m a epl) = true := by simpa using hv
      rw [if_neg hv, if_pos hv2]
      have hhead : fs (iedbPath P c a epl m) = true := by
        apply h
        rw [validOutsOf_cons, if_pos hv2]
        exact List.mem_cons_self _ _
      rw [if_pos hhead]
      have hrest : ∀ p ∈ validOutsOf P c a epl ms, fs p = true := by
        intro p hp
        apply h
        rw [validOutsOf_cons, if_pos hv2]
        exact List.mem_cons_of_mem _ hp
      rw [ih fs hrest]

lemma algRun_parsed_preserve (P : EngineParams) (c : ℕ × ℕ) (a epl : ℕ) :
    ∀ (ms : List ℕ) (fs : FS) (c2 : ℕ × ℕ) (a2 e2 : ℕ),
      (algRun P c a epl ms fs).1 (parsedPath c2 a2 e2) =
        fs (parsedPath c2 a2 e2) := by
  intro ms
  induction ms with
  | nil => intro fs c2 a2 e2; rfl
  | cons m ms ih =>
    intro fs c2 a2 e2
    simp only [algRun]
    split_ifs with h1 h2
    · exact ih fs c2 a2 e2
    · exact ih fs c2 a2 e2
    · rw [ih _ c2 a2 e2]
      simp [insertArtifact, iedbPath, parsedPath]

lemma StableCell.mono {P : EngineParams} {fs fs2 : FS} {cell : (ℕ × ℕ) × ℕ × ℕ}
    (h : StableCell P fs cell) (hmono : ∀ p, fs p = true → fs2 p = true) :
    StableCell P fs2 cell := by
  intro hne
  obtain ⟨h1, h2⟩ := h hne
  exact ⟨fun p hp => hmono p (h1 p hp), fun hv => hmono _ (h2 hv)⟩

lemma cellRun_fst_mono (P : EngineParams) (cell : (ℕ × ℕ) × ℕ × ℕ) (fs : FS)
    (p : ArtifactPath) (h : fs p = true) : (cellRun P cell fs).1 p = true := by
  unfold cellRun
  split_ifs with h0 h1 h2
  · exact h
  · exact algRun_fst_mono P _ _ _ _ fs p h
  · exact insertArtifact_mono _ (algRun_fst_mono P _ _ _ _ fs p h)
  · exact algRun_fst_mono P _ _ _ _ fs p h

lemma cellRun_establishes (P : EngineParams) (cell : (ℕ × ℕ) × ℕ × ℕ) (fs : FS) :
    StableCell P (cellRun P cell fs).1 cell := by
  intro hne
  unfold cellRun
  rw [hne]
  simp only [Bool.false_eq_true, if_false]
  split_ifs with h1 h2
  · exact ⟨fun p hp => algRun_complete P _ _ _ _ fs p hp, fun _ => h1⟩
  · constructor
    · intro p hp
      exact insertArtifact_mono _ (algRun_complete P _ _ _ _ fs p hp)
    · intro _
      exact insertArtifact_self _ _
  · constructor
    · intro p hp
      exact algRun_complete P _ _ _ _ fs p hp
    · intro hv
      exfalso
      apply h2
      rw [algRun_outs]
      exact hv

lemma cellRun_stable (P : EngineParams) (cell : (ℕ × ℕ) × ℕ × ℕ) (fs : FS)
    (h : StableCell P fs cell) :
    cellRun P cell fs = (fs, [], cellDelta P fs cell) := by
  unfold cellRun cellDelta
  by_cases hne : P.fasta_empty cell.1
  · simp [hne]
  · have hne2 : P.fasta_empty cell.1 = false := by simpa using hne
    obtain ⟨ha, hb⟩ := h hne2
    have hs := algRun_stable P cell.1 cell.2.1 cell.2.2 P.prediction_algorithms fs ha
    rw [hne2]
    simp only [Bool.false_eq_true, if_false, hs]
    by_cases hp : fs (parsedPath cell.1 cell.2.1 cell.2.2) = true
    · simp [hp]
    · have hp2 : fs (parsedPath cell.1 cell.2.1 cell.2.2) = false := by simpa using hp
      rw [hp2]
      simp only [Bool.false_eq_true, if_false]
      split_ifs with hv
      · exact absurd (hb hv) hp
      · rfl

lemma cellRun_outs_char (P : EngineParams) (cell : (ℕ × ℕ) × ℕ × ℕ) (fs : FS) :
    (cellRun P cell fs).2.2 =
      if P.fasta_empty cell.1 = false ∧ (fs (parsedPath cell.1 cell.2.1 cell.2.2) = true ∨
          validOutsOf P cell.1 cell.2.1 cell.2.2 P.prediction_algorithms ≠ [])
      then [parsedPath cell.1 cell.2.1 cell.2.2] else [] := by
  unfold cellRun
  by_cases hne : P.fasta_empty cell.1 = true
  · have hneg0 : ¬(P.fasta_empty cell.1 = false ∧
        (fs (parsedPath cell.1 cell.2.1 cell.2.2) = true ∨
          validOutsOf P cell.1 cell.2.1 cell.2.2 P.prediction_algorithms ≠ [])) := by
      rintro ⟨hf, -⟩
      rw [hne] at hf
      exact Bool.noConfusion hf
    rw [if_pos hne, if_neg hneg0]
  · have hne2 : P.fasta_empty cell.1 = false := by simpa using hne
    rw [if_neg hne]
    by_cases h1 : (algRun P cell.1 cell.2.1 cell.2.2 P.prediction_algorithms fs).1
        (parsedPath cell.1 cell.2.1 cell.2.2) = true
    · have hc1 : fs (parsedPath cell.1 cell.2.1 cell.2.2) = true := by
        rw [← algRun_parsed_preserve P cell.1 cell.2.1 cell.2.2 P.prediction_algorithms fs]
        exact h1
      rw [if_pos h1, if_pos ⟨hne2, Or.inl hc1⟩]
    · rw [if_neg h1]
      by_cases h2 : (algRun P cell.1 cell.2.1 cell.2.2 P.prediction_algorithms fs).2.2 ≠ []
      · have hc2 : validOutsOf P cell.1 cell.2.1 cell.2.2 P.prediction_algorithms ≠ [] := by
          rw [← algRun_outs P cell.1 cell.2.1 cell.2.2 P.prediction_algorithms fs]
          exact h2
        rw [if_pos h2, if_pos ⟨hne2, Or.inr hc2⟩]
      · have hneg : ¬(P.fasta_empty cell.1 = false ∧
            (fs (parsedPath cell.1 cell.2.1 cell.2.2) = true ∨
              validOutsOf P cell.1 cell.2.1 cell.2.2 P.prediction_algorithms ≠ [])) := by
          rintro ⟨-, hc | hc⟩
          · apply h1
            rw [algRun_parsed_preserve]
            exact hc
          · apply h2
            rw [algRun_outs]
            exact hc
        rw [if_neg h2, if_neg hneg]

lemma cellRun_not_write_parsed (P : EngineParams) (cell : (ℕ × ℕ) × ℕ × ℕ) (fs : FS)
    (c2 : ℕ × ℕ) (a2 e2 : ℕ)
    (houts : validOutsOf P c2 a2 e2 P.prediction_algorithms = [])
    (hfs : fs (parsedPath c2 a2 e2) = false) :
    (cellRun P cell fs).1 (parsedPath c2 a2 e2) = false := by
  unfold cellRun
  split_ifs with h0 h1 h2
  · exact hfs
  · rw [algRun_parsed_preserve]
    exact hfs
  · simp only [insertArtifact]
    split_ifs with heq
    · exfalso
      rw [algRun_outs] at h2
      simp only [parsedPath, ArtifactPath.parsed.injEq] at heq
      obtain ⟨hc, ha, he⟩ := heq
      rw [hc, ha, he] at houts
      exact h2 houts
    · rw [algRun_parsed_preserve]
      exact hfs
  · rw [algRun_parsed_preserve]
    exact hfs

lemma engineRun_fst_mono (P : EngineParams) :
    ∀ (cs : List ((ℕ × ℕ) × ℕ × ℕ)) (fs : FS) (p : ArtifactPath),
      fs p = true → (engineRun P cs fs).1 p = true := by
  intro cs
  induction cs with
  | nil => intro fs p h; exact h
  | cons c cs ih =>
    intro fs p h
    exact ih _ p (cellRun_fst_mono P c fs p h)

lemma engineRun_not_write_parsed (P : EngineParams) :
    ∀ (cs : List ((ℕ × ℕ) × ℕ × ℕ)) (fs : FS) (c2 : ℕ × ℕ) (a2 e2 : ℕ),
      validOutsOf P c2 a2 e2 P.prediction_algorithms = [] →
      fs (parsedPath c2 a2 e2) = false →
      (engineRun P cs fs).1 (parsedPath c2 a2 e2) = false := by
  intro cs
  induction cs with
  | nil => intro fs c2 a2 e2 _ h; exact h
  | cons c cs ih =>
    intro fs c2 a2 e2 houts h
    exact ih _ c2 a2 e2 houts (cellRun_not_write_parsed P c fs c2 a2 e2 houts h)

lemma engineRun_establishes (P : EngineParams) :
    ∀ (cs : List ((ℕ × ℕ) × ℕ × ℕ)) (fs : FS) (cell : (ℕ × ℕ) × ℕ × ℕ),
      cell ∈ cs → StableCell P (engineRun P cs fs).1 cell := by
  intro cs
  induction cs with
  | nil => intro fs cell h; simp at h
  | cons c cs ih =>
    intro fs cell h
    rcases List.mem_cons.mp h with h | h
    · subst h
      exact (cellRun_establishes P cell fs).mono
        (fun p hp => engineRun_fst_mono P cs _ p hp)
    · exact ih _ cell h

lemma engineRun_idem (P : EngineParams) :
    ∀ (cs : List ((ℕ × ℕ) × ℕ × ℕ)) (fs : FS),
      engineRun P cs ((engineRun P cs fs).1) =
        ((engineRun P cs fs).1, [], (engineRun P cs fs).2.2) := by
  intro cs
  induction cs with
  | nil => intro fs; rfl
  | cons c cs ih =>
    intro fs
    have hstable : StableCell P (engineRun P (c :: cs) fs).1 c :=
      engineRun_establishes P (c :: cs) fs c (List.mem_cons_self _ _)
    have hfs1 : (engineRun P (c :: cs) fs).1 = (engineRun P cs (cellRun P c fs).1).1 := rfl
    have hcell : cellRun P c (engineRun P (c :: cs) fs).1 =
        ((engineRun P (c :: cs) fs).1, [],
          cellDelta P (engineRun P (c :: cs) fs).1 c) :=
      cellRun_stable P c _ hstable
    have hdelta : cellDelta P (engineRun P (c :: cs) fs).1 c = (cellRun P c fs).2.2 := by
      rw [cellRun_outs_char]
      unfold cellDelta
      by_cases hne : P.fasta_empty c.1 = true
      · have hneg0 : ¬(P.fasta_empty c.1 = false ∧
            (fs (parsedPath c.1 c.2.1 c.2.2) = true ∨
              validOutsOf P c.1 c.2.1 c.2.2 P.prediction_algorithms ≠ [])) := by
          rintro ⟨hf, -⟩
          rw [hne] at hf
          exact Bool.noConfusion hf
        rw [if_pos hne, if_neg hneg0]
      · have hne2 : P.fasta_empty c.1 = false := by simpa using hne
        rw [if_neg hne]
        by_cases hp1 : (engineRun P (c :: cs) fs).1 (parsedPath c.1 c.2.1 c.2.2) = true
        · have hcond : P.fasta_empty c.1 = false ∧
              (fs (parsedPath c.1 c.2.1 c.2.2) = true ∨
                validOutsOf P c.1 c.2.1 c.2.2 P.prediction_algorithms ≠ []) := by
            refine ⟨hne2, ?_⟩
            by_cases hv : validOutsOf P c.1 c.2.1 c.2.2 P.prediction_algorithms = []
            · left
              by_contra hfsp
              have hfsp2 : fs (parsedPath c.1 c.2.1 c.2.2) = false := by
                cases hx : fs (parsedPath c.1 c.2.1 c.2.2)
                · rfl
                · exact absurd hx hfsp
              have hA : (cellRun P c fs).1 (parsedPath c.1 c.2.1 c.2.2) = false :=
                cellRun_not_write_parsed P c fs c.1 c.2.1 c.2.2 hv hfsp2
              have hB : (engineRun P (c :: cs) fs).1 (parsedPath c.1 c.2.1 c.2.2) = false := by
                rw [hfs1]
                exact engineRun_not_write_parsed P cs _ c.1 c.2.1 c.2.2 hv hA
              rw [hB] at hp1
              exact Bool.noConfusion hp1
            · right
              exact hv
          rw [if_pos hp1, if_pos hcond]
        · have hneg : ¬(P.fasta_empty c.1 = false ∧
              (fs (parsedPath c.1 c.2.1 c.2.2) = true ∨
                validOutsOf P c.1 c.2.1 c.2.2 P.prediction_algorithms ≠ [])) := by
            rintro ⟨-, hc | hc⟩
            · apply hp1
              rw [hfs1]
              apply engineRun_fst_mono
              exact cellRun_fst_mono P c fs _ hc
            · apply hp1
              exact (hstable hne2).2 hc
          rw [if_neg hp1, if_neg hneg]
    show ((engineRun P cs (cellRun P c (engineRun P (c :: cs) fs).1).1).1,
        (cellRun P c (engineRun P (c :: cs) fs).1).2.1 ++
          (engineRun P cs (cellRun P c (engineRun P (c :: cs) fs).1).1).2.1,
        (cellRun P c (engineRun P (c :: cs) fs).1).2.2 ++
          (engineRun P cs (cellRun P c (engineRun P (c :: cs) fs).1).1).2.2) = _
    rw [hcell, hdelta]
    have htail : engineRun P cs (engineRun P (c :: cs) fs).1 =
        ((engineRun P (c :: cs) fs).1, [], (engineRun P cs (cellRun P c fs).1).2.2) := by
      rw [hfs1]
      exact ih (cellRun P c fs).1
    simp only [htail]
    rfl

/-- Claim C5: running the engine a second time on the file system produced
by a first run performs zero external-tool invocations, writes no new
artifact (the final file system is unchanged), and returns exactly the same
`split_parsed_output_files` list — hence the combined output, a function of
that list, is identical. -/
theorem call_iedb_and_parse_outputs_idempotent (P : EngineParams)
    (chunks : List (ℕ × ℕ)) (fs0 : FS) :
    call_iedb_and_parse_outputs P chunks ((call_iedb_and_parse_outputs P chunks fs0).1) =
      ((call_iedb_and_parse_outputs P chunks fs0).1, [],
        (call_iedb_and_parse_outputs P chunks fs0).2.2) :=
  engineRun_idem P (cellList P chunks) fs0

lemma gatewayStart_ge (t arrive : ℚ) :
    t + 60 ≤ gatewayStart true false (some t) arrive := by
  unfold gatewayStart
  rw [if_pos rfl]
  simp only [Bool.false_eq_true, if_false]
  split_ifs with h
  · linarith
  · linarith

lemma runGateway_sep_aux :
    ∀ (steps : List (ℚ × ℚ)) (now t : ℚ),
      (∀ gd ∈ steps, 0 ≤ gd.1 ∧ 0 ≤ gd.2) →
      sep60 (runGateway true false steps now (some t)) = true ∧
      headGe t (runGateway true false steps now (some t)) := by
  intro steps
  induction steps with
  | nil => intro now t _; exact ⟨rfl, trivial⟩
  | cons gd rest ih =>
    intro now t h
    have hgd := h gd (List.mem_cons_self _ _)
    have hS := gatewayStart_ge t (now + gd.1)
    obtain ⟨ih1, ih2⟩ := ih
      (gatewayStart true false (some t) (now + gd.1) + gd.2)
      (gatewayStart true false (some t) (now + gd.1) + gd.2)
      (fun x hx => h x (List.mem_cons_of_mem _ hx))
    simp only [runGateway]
    constructor
    · cases htail : runGateway true false rest
          (gatewayStart true false (some t) (now + gd.1) + gd.2)
          (some (gatewayStart true false (some t) (now + gd.1) + gd.2)) with
      | nil => rfl
      | cons x xs =>
        rw [htail] at ih1 ih2
        simp only [headGe] at ih2
        simp only [sep60, Bool.and_eq_true, decide_eq_true_eq]
        exact ⟨by linarith [hgd.2], ih1⟩
    · simp only [headGe]
      exact hS

/-- Amended C6: when no executable override is supplied AND the rate-limit
check is active (`TEST_FLAG` unset, empty, or `"0"`), any two consecutive
invocation start times in a sequential gateway trace are at least 60
seconds apart. -/
theorem gateway_min_spacing (v : Option String) (steps : List (ℚ × ℚ)) (now : ℚ)
    (hv : waitCheckEnabled v = true)
    (hsteps : ∀ gd ∈ steps, 0 ≤ gd.1 ∧ 0 ≤ gd.2) :
    sep60 (runGateway (waitCheckEnabled v) false steps now none) = true := by
  rw [hv]
  cases steps with
  | nil => rfl
  | cons gd rest =>
    have hgd := hsteps gd (List.mem_cons_self _ _)
    simp only [runGateway]
    have h0 : gatewayStart true false none (now + gd.1) = now + gd.1 := rfl
    rw [h0]
    obtain ⟨ih1, ih2⟩ := runGateway_sep_aux rest (now + gd.1 + gd.2) (now + gd.1 + gd.2)
      (fun x hx => hsteps x (List.mem_cons_of_mem _ hx))
    cases htail : runGateway true false rest (now + gd.1 + gd.2)
        (some (now + gd.1 + gd.2)) with
    | nil => rfl
    | cons x xs =>
      rw [htail] at ih1 ih2
      simp only [headGe] at ih2
      simp only [sep60, Bool.and_eq_true, decide_eq_true_eq]
      exact ⟨by linarith [hgd.2], ih1⟩

/-- Witness for C6 (amended): two back-to-back zero-duration invocations
with `TEST_FLAG` unset are spaced at least 60 seconds apart. -/
theorem gateway_min_spacing_witness :
    (waitCheckEnabled none = true ∧
      ∀ gd ∈ [((0 : ℚ), (0 : ℚ)), (0, 0)], 0 ≤ gd.1 ∧ 0 ≤ gd.2) ∧
    sep60 (runGateway (waitCheckEnabled none) false [(0, 0), (0, 0)] 0 none) = true :=
  ⟨⟨rfl, by decide⟩, gateway_min_spacing none [(0, 0), (0, 0)] 0 rfl (by decide)⟩

/-- Counterexample to C6 as stated: with `TEST_FLAG` set to `"1"` and no
executable override, two back-to-back invocations start 0 seconds apart —
the claim omits the `TEST_FLAG` guard around the throttle. -/
theorem gateway_spacing_counterexample :
    waitCheckEnabled (some "1") = false ∧
    runGateway (waitCheckEnabled (some "1")) false [(0, 0), (0, 0)] 0 none = [0, 0] ∧
    sep60 (runGateway (waitCheckEnabled (some "1")) false [(0, 0), (0, 0)] 0 none) = false := by
  have hv : waitCheckEnabled (some "1") = false := by decide
  have h2 : runGateway (waitCheckEnabled (some "1")) false [(0, 0), (0, 0)] 0 none =
      [0, 0] := by
    rw [hv]
    norm_num [runGateway, gatewayStart]
  refine ⟨hv, h2, ?_⟩
  rw [h2]
  norm_num [sep60]

lemma runGateway_noWait (ov : Bool) :
    ∀ (steps : List (ℚ × ℚ)) (now : ℚ) (last : Option ℚ),
      runGateway false ov steps now last = noWaitRun steps now := by
  intro steps
  induction steps with
  | nil => intro now last; rfl
  | cons gd rest ih =>
    intro now last
    simp only [runGateway, noWaitRun, gatewayStart, Bool.false_eq_true, if_false]
    rw [ih]

/-- Amended C10: when `TEST_FLAG` is set to any NON-EMPTY value other than
`"0"`, the pre-invocation wait is skipped entirely — the trace equals the
wait-free trace regardless of override, so consecutive invocations can be
arbitrarily close.  (For the empty string the wait still applies; see the
counterexample.) -/
theorem test_flag_skips_wait (s : String) (h1 : s ≠ "") (h2 : s ≠ "0") (ov : Bool)
    (steps : List (ℚ × ℚ)) (now : ℚ) (last : Option ℚ) :
    waitCheckEnabled (some s) = false ∧
    runGateway (waitCheckEnabled (some s)) ov steps now last = noWaitRun steps now := by
  have hv : waitCheckEnabled (some s) = false := by
    simp only [waitCheckEnabled, Bool.or_eq_false_iff, beq_eq_false_iff_ne, ne_eq]
    exact ⟨h1, h2⟩
  refine ⟨hv, ?_⟩
  rw [hv]
  exact runGateway_noWait ov steps now last

/-- Witness for C10 (amended): with `TEST_FLAG = "1"` two back-to-back
zero-duration invocations start at the same instant. -/
theorem test_flag_skips_wait_witness :
    (("1" : String) ≠ "" ∧ ("1" : String) ≠ "0") ∧
    (waitCheckEnabled (some "1") = false ∧
      runGateway (waitCheckEnabled (some "1")) false [((0 : ℚ), (0 : ℚ)), (0, 0)] 0 none =
        noWaitRun [(0, 0), (0, 0)] 0) :=
  ⟨⟨by decide, by decide⟩,
    test_flag_skips_wait "1" (by decide) (by decide) false [(0, 0), (0, 0)] 0 none⟩

/-- Counterexample to C10 as stated: `TEST_FLAG = ""` is a value other than
`"0"`, yet the wait is NOT skipped — the empty string is falsy in Python,
so the check treats it like an unset variable and the second invocation is
delayed to 60 seconds. -/
theorem test_flag_empty_counterexample :
    waitCheckEnabled (some "") = true ∧
    runGateway (waitCheckEnabled (some "")) false [(0, 0), (0, 0)] 0 none = [0, 60] := by
  have hv : waitCheckEnabled (some "") = true := by decide
  refine ⟨hv, ?_⟩
  rw [hv]
  norm_num [runGateway, gatewayStart]

lemma checkInputs_keyerror (past : List (String × Option String)) (k : String)
    (hk1 : k ≠ "pvactools_version") (hk2 : k ≠ "pvacseq_version")
    (hmiss : lookupKey past k = none) :
    ∀ pre : List (String × Option String),
      (∀ p ∈ pre, (p.1 = "pvactools_version" ∨ p.1 = "pvacseq_version") ∨
        lookupKey past p.1 = some p.2) →
      ∀ rest, checkInputs past (pre ++ (k, none) :: rest) = .keyError k := by
  intro pre
  induction pre with
  | nil =>
    intro _ rest
    simp only [List.nil_append, checkInputs]
    rw [if_neg (by rintro (h | h) <;> [exact hk1 h; exact hk2 h])]
    rw [hmiss]
    rw [if_neg (by simp)]
  | cons p pre ih =>
    intro hpre rest
    obtain ⟨k2, v2⟩ := p
    simp only [List.cons_append, checkInputs]
    by_cases hver : k2 = "pvactools_version" ∨ k2 = "pvacseq_version"
    · rw [if_pos hver]
      exact ih (fun q hq => hpre q (List.mem_cons_of_mem _ hq)) rest
    · rw [if_neg hver]
      rcases hpre (k2, v2) (List.mem_cons_self _ _) with hv | hl
      · exact absurd hv hver
      · have hl2 : lookupKey past k2 = some v2 := hl
        rw [hl2]
        show (if v2 ≠ v2 then LogCheckResult.exitMismatch k2
            else checkInputs past (pre ++ (k, none) :: rest)) = LogCheckResult.keyError k
        rw [if_neg (show ¬(v2 ≠ v2) from fun hne => hne rfl)]
        exact ih (fun q hq => hpre q (List.mem_cons_of_mem _ hq)) rest

/-- Claim C9: when the restart log exists and `current_inputs` contains —
after a prefix of keys that are version keys or match the recorded inputs —
a key that is absent from `past_inputs` and whose current value is None,
`print_log` raises `KeyError` on that key (it neither exits with a restart
diagnostic nor continues normally). -/
theorem print_log_keyerror (past pre rest : List (String × Option String)) (k : String)
    (hk1 : k ≠ "pvactools_version") (hk2 : k ≠ "pvacseq_version")
    (hmiss : lookupKey past k = none)
    (hpre : ∀ p ∈ pre, (p.1 = "pvactools_version" ∨ p.1 = "pvacseq_version") ∨
      lookupKey past p.1 = some p.2) :
    print_log true past (pre ++ (k, none) :: rest) = some (.keyError k) := by
  unfold print_log
  rw [if_pos rfl, checkInputs_keyerror past k hk1 hk2 hmiss pre hpre rest]

/-- Witness for C9: a fresh input key with value None (e.g. a newly added
option) against a past log without it. -/
theorem print_log_keyerror_witness :
    (("phased_proximal_variants_vcf" : String) ≠ "pvactools_version" ∧
      ("phased_proximal_variants_vcf" : String) ≠ "pvacseq_version" ∧
      lookupKey [] "phased_proximal_variants_vcf" = none) ∧
    print_log true [] [("phased_proximal_variants_vcf", (none : Option String))] =
      some (.keyError "phased_proximal_variants_vcf") :=
  ⟨⟨by decide, by decide, rfl⟩,
    print_log_keyerror [] [] [] "phased_proximal_variants_vcf" (by decide) (by decide) rfl
      (by intro p hp; exact absurd hp (List.not_mem_nil p))⟩

/-- Claim C7: a run whose converted tabular input has zero data rows (the
input types that go through conversion are `vcf` and `bedpe`) exits with
the empty-input diagnostic before any chunking, FASTA generation, or
external-tool work. -/
theorem execute_empty_input_aborts (t : InputFileType) (T : ℕ) (P : EngineParams) (fs0 : FS)
    (ht : t = .vcf ∨ t = .bedpe) :
    executeModel t T 0 P fs0 = (.emptyInputExit, none) := by
  unfold executeModel
  rw [if_pos ⟨rfl, ht⟩]

/-- Witness for C7 at a vcf input with zero rows. -/
theorem execute_empty_input_aborts_witness :
    (InputFileType.vcf = InputFileType.vcf ∨ InputFileType.vcf = InputFileType.bedpe) ∧
    executeModel .vcf 100 0 sampleParams emptyFS = (.emptyInputExit, none) :=
  ⟨Or.inl rfl, execute_empty_input_aborts .vcf 100 sampleParams emptyFS (Or.inl rfl)⟩

/-- Claim C8: whenever the nested traversal returns an empty
`split_parsed_output_files` (and the run got past the empty-input check),
`execute` ends in the graceful no-usable-output outcome — distinct from the
`sys.exit` outcome — and the combined output file is not written. -/
theorem execute_no_usable_output (t : InputFileType) (T total : ℕ) (P : EngineParams)
    (fs0 : FS)
    (hnz : ¬(total = 0 ∧ (t = .vcf ∨ t = .bedpe)))
    (hparsed : (call_iedb_and_parse_outputs P (split_tsv_file T total) fs0).2.2 = []) :
    executeModel t T total P fs0 = (.noUsableOutput, none) := by
  unfold executeModel
  rw [if_neg hnz, if_pos (by rw [hparsed]; rfl)]

/-- Witness for C8: one chunk, one allele, one length, one algorithm, but
zero compatible combinations — the engine returns no parsed artifact and
the run ends as no-usable-output with no combined file. -/
theorem execute_no_usable_output_witness :
    (¬((1 : ℕ) = 0 ∧ (InputFileType.vcf = .vcf ∨ InputFileType.vcf = .bedpe)) ∧
      (call_iedb_and_parse_outputs sampleParams (split_tsv_file 1 1) emptyFS).2.2 = []) ∧
    executeModel .vcf 1 1 sampleParams emptyFS = (.noUsableOutput, none) :=
  ⟨⟨by decide, rfl⟩,
    execute_no_usable_output .vcf 1 1 sampleParams emptyFS (by decide) rfl⟩

end Pipeline
